import Mathlib

/-!
Shallow embedding of the backend core of this repository:

* the SSE stream pump `Model._stream` (src/backend/utils.py, lines 230-253)
  and the pump inside `approve_tool_calls_streaming.event_generator`
  (src/backend/routers/chat.py, lines 198-217);
* the MCP tool executor `MCPClient.call_tool` (src/backend/mcp_client.py,
  lines 84-121) and the connect sequence `MCPClient.connect_to_server`
  (lines 36-76);
* the connection manager `MCPManager.get_or_create_client` (lines 142-159);
* the tool-call approval orchestration of the chat router
  (src/backend/routers/chat.py, lines 106-224).

Byte buffers are `List Char` (the Python code works on decoded text).
Python loops carrying a shrinking buffer are embedded with an explicit
iteration bound (`streamIter`, `chatIter`): one unit of fuel per processed
line, with `buf.length` always sufficient, so the functions stay
structurally recursive and kernel-computable.
-/

namespace NovaSpec

/-- ASCII whitespace removed by Python `str.strip()`. -/
def isWS (c : Char) : Bool :=
  c = ' ' || c = '\t' || c = '\n' || c = '\r' || c = '\x0b' || c = '\x0c'

/-- Python `line.strip()` on a list of characters. -/
def pstrip (l : List Char) : List Char :=
  ((l.dropWhile isWS).reverse.dropWhile isWS).reverse

/-- The literal checked by `line.startswith("data: ")` (utils.py line 244). -/
def dataTag : List Char := "data: ".data

/-- The sentinel compared by `if data == "[DONE]"` (utils.py line 246). -/
def doneLit : List Char := "[DONE]".data

/-- `buffer.find("\n")` together with the two slices
`buffer[:line_end]` and `buffer[line_end + 1:]` (utils.py lines 239-243):
`none` when the buffer holds no complete line, otherwise the first line
(without its newline) and the rest of the buffer. -/
def splitFirstLine : List Char → Option (List Char × List Char)
  | [] => none
  | c :: cs =>
    if c = '\n' then some ([], cs)
    else
      match splitFirstLine cs with
      | none => none
      | some (l, r) => some (c :: l, r)

/-- The inner `while True` loop of `Model._stream` (utils.py lines 236-253),
run on the current buffer.  Each iteration: find the next newline (stop if
none), strip the line, and if it starts with `data: ` take the payload
`line[6:]`; `[DONE]` breaks out of the loop (leaving the rest of the buffer
unprocessed), any other payload is yielded.  Returns the remaining buffer
and the yielded payloads in order.  `fuel` bounds the number of iterations;
one line is consumed per iteration so `buf.length` units always suffice. -/
def streamIter : Nat → List Char → List Char × List (List Char)
  | 0, buf => (buf, [])
  | fuel + 1, buf =>
    match splitFirstLine buf with
    | none => (buf, [])
    | some (l, rest) =>
      let line := pstrip l
      if dataTag.isPrefixOf line then
        if line.drop 6 = doneLit then
          (rest, [])
        else
          match streamIter fuel rest with
          | (b, out) => (b, line.drop 6 :: out)
      else streamIter fuel rest

/-- One execution of the inner loop of `Model._stream` on a buffer. -/
def procLoop (buf : List Char) : List Char × List (List Char) :=
  streamIter buf.length buf

/-- The outer `for chunk in r.iter_content(...)` loop of `Model._stream`
(utils.py lines 234-235): each chunk is appended to the buffer and the
inner loop is run.  Returns the final buffer and all yielded payloads. -/
def feedChunks : List Char → List (List Char) → List Char × List (List Char)
  | b, [] => (b, [])
  | b, c :: cs =>
    match procLoop (b ++ c) with
    | (b1, out1) =>
      match feedChunks b1 cs with
      | (b2, out2) => (b2, out1 ++ out2)

/-- The inner `while True` loop of the pump in
`approve_tool_calls_streaming.event_generator` (chat.py lines 203-217).
Identical line handling, but `[DONE]` yields the terminal marker
`data: [DONE]\n\n` and `return`s from the generator (third component
`true`), and every other payload is re-framed as `data: <payload>\n\n`. -/
def chatIter : Nat → List Char → List Char × List (List Char) × Bool
  | 0, buf => (buf, [], false)
  | fuel + 1, buf =>
    match splitFirstLine buf with
    | none => (buf, [], false)
    | some (l, rest) =>
      let line := pstrip l
      if dataTag.isPrefixOf line then
        if line.drop 6 = doneLit then
          (rest, ["data: [DONE]\n\n".data], true)
        else
          match chatIter fuel rest with
          | (b, out, t) => (b, (dataTag ++ line.drop 6 ++ ['\n', '\n']) :: out, t)
      else chatIter fuel rest

/-- One execution of the chat-router pump's inner loop on a buffer. -/
def chatLoop (buf : List Char) : List Char × List (List Char) × Bool :=
  chatIter buf.length buf

/-- State of the chat-router pump: the carried buffer, and whether the
generator has `return`ed (after which no further chunk is processed). -/
structure ChatPumpState where
  buf : List Char
  halted : Bool
deriving DecidableEq, Repr

/-- Feed one chunk to the chat-router pump (chat.py lines 200-217): a
`return`ed generator processes nothing further. -/
def chatFeed (s : ChatPumpState) (c : List Char) : ChatPumpState × List (List Char) :=
  if s.halted then (s, [])
  else
    match chatLoop (s.buf ++ c) with
    | (b, out, t) => (⟨b, t⟩, out)

/-- Feed a sequence of chunks to the chat-router pump. -/
def chatFeedAll : ChatPumpState → List (List Char) → ChatPumpState × List (List Char)
  | s, [] => (s, [])
  | s, c :: cs =>
    match chatFeed s c with
    | (s1, out1) =>
      match chatFeedAll s1 cs with
      | (s2, out2) => (s2, out1 ++ out2)

/-- A well-formed upstream event stream (section 6 of the spec): each event
framed as `data: <payload>\n\n`, terminated by `data: [DONE]\n\n`. -/
def mkStream (es : List (List Char)) : List Char :=
  (es.map (fun e => dataTag ++ e ++ ['\n', '\n'])).flatten ++ (dataTag ++ doneLit ++ ['\n', '\n'])

/-- No newline occurs in the list. -/
def noNL (l : List Char) : Bool := l.all (fun c => !(c = '\n'))

/-- A payload that survives the pump intact: nonempty, no newline, last
character not whitespace (so `strip` leaves the framing line unchanged),
and not the sentinel itself. -/
def niceEv (e : List Char) : Bool :=
  (match e.reverse with
   | [] => false
   | c :: _ => !isWS c) && noNL e && !(e == doneLit)

/-- Every event payload of the stream is well-behaved. -/
@[reducible] def NiceAll (es : List (List Char)) : Prop := ∀ e ∈ es, niceEv e = true

theorem noNL_iff {l : List Char} : noNL l = true ↔ ∀ c ∈ l, c ≠ '\n' := by
  simp [noNL, List.all_eq_true]

theorem splitFirstLine_length : ∀ {buf l r : List Char},
    splitFirstLine buf = some (l, r) → r.length < buf.length := by
  intro buf
  induction buf with
  | nil => intro l r h; simp [splitFirstLine] at h
  | cons c cs ih =>
    intro l r h
    by_cases hc : c = '\n'
    · simp only [splitFirstLine, if_pos hc, Option.some.injEq, Prod.mk.injEq] at h
      obtain ⟨-, h2⟩ := h
      subst h2
      simp [Nat.lt_succ_iff]
    · cases hsf : splitFirstLine cs with
      | none => simp [splitFirstLine, if_neg hc, hsf] at h
      | some lr =>
        obtain ⟨l', r'⟩ := lr
        simp only [splitFirstLine, if_neg hc, hsf, Option.some.injEq, Prod.mk.injEq] at h
        obtain ⟨-, h2⟩ := h
        subst h2
        exact Nat.lt_trans (ih hsf) (Nat.lt_succ_self _)

theorem splitFirstLine_of_noNL : ∀ {A : List Char}, noNL A = true → splitFirstLine A = none := by
  intro A
  induction A with
  | nil => intro _; rfl
  | cons a A ih =>
    intro h
    rw [noNL_iff] at h
    have ha : a ≠ '\n' := h a (by simp)
    have hA : noNL A = true := noNL_iff.mpr fun c hc => h c (by simp [hc])
    simp [splitFirstLine, if_neg ha, ih hA]

theorem splitFirstLine_append : ∀ {A : List Char}, noNL A = true → ∀ (B : List Char),
    splitFirstLine (A ++ '\n' :: B) = some (A, B) := by
  intro A
  induction A with
  | nil => intro _ B; simp [splitFirstLine]
  | cons a A ih =>
    intro h B
    rw [noNL_iff] at h
    have ha : a ≠ '\n' := h a (by simp)
    have hA : noNL A = true := noNL_iff.mpr fun c hc => h c (by simp [hc])
    simp [splitFirstLine, if_neg ha, ih hA B]

theorem streamIter_fuel : ∀ (f g : Nat) (buf : List Char),
    buf.length ≤ f → buf.length ≤ g → streamIter f buf = streamIter g buf := by
  intro f
  induction f with
  | zero =>
    intro g buf hf _
    have hb : buf = [] := List.eq_nil_of_length_eq_zero (Nat.le_zero.mp hf)
    subst hb
    cases g <;> simp [streamIter, splitFirstLine]
  | succ f ih =>
    intro g buf hf hg
    cases g with
    | zero =>
      have hb : buf = [] := List.eq_nil_of_length_eq_zero (Nat.le_zero.mp hg)
      subst hb
      simp [streamIter, splitFirstLine]
    | succ g =>
      cases hsf : splitFirstLine buf with
      | none => simp [streamIter, hsf]
      | some lr =>
        obtain ⟨l, rest⟩ := lr
        have hlen := splitFirstLine_length hsf
        have hf' : rest.length ≤ f := Nat.lt_succ_iff.mp (Nat.lt_of_lt_of_le hlen hf)
        have hg' : rest.length ≤ g := Nat.lt_succ_iff.mp (Nat.lt_of_lt_of_le hlen hg)
        simp only [streamIter, hsf]
        rw [ih g rest hf' hg']

theorem streamIter_eq_procLoop {f : Nat} {buf : List Char} (h : buf.length ≤ f) :
    streamIter f buf = procLoop buf :=
  streamIter_fuel f buf.length buf h (Nat.le_refl _)

theorem procLoop_of_noNL {buf : List Char} (h : noNL buf = true) : procLoop buf = (buf, []) := by
  cases buf with
  | nil => rfl
  | cons c cs => simp [procLoop, streamIter, splitFirstLine_of_noNL h]

theorem procLoop_nil : procLoop [] = ([], []) := rfl

theorem isPrefixOf_append_self : ∀ (l m : List Char), l.isPrefixOf (l ++ m) = true := by
  intro l m
  induction l with
  | nil => simp [List.isPrefixOf]
  | cons c cs ih => simp [List.isPrefixOf, ih]

theorem niceEv_parts {e : List Char} (h : niceEv e = true) :
    (∃ c t, e.reverse = c :: t ∧ isWS c = false) ∧ noNL e = true ∧ e ≠ doneLit := by
  unfold niceEv at h
  cases he : e.reverse with
  | nil => rw [he] at h; simp at h
  | cons c t =>
    rw [he] at h
    simp only [Bool.and_eq_true, Bool.not_eq_true', beq_eq_false_iff_ne, ne_eq] at h
    exact ⟨⟨c, t, rfl, h.1.1⟩, h.1.2, h.2⟩

theorem pstrip_eq_self {l : List Char} (h1 : ∃ c t, l = c :: t ∧ isWS c = false)
    (h2 : ∃ c t, l.reverse = c :: t ∧ isWS c = false) : pstrip l = l := by
  obtain ⟨c, t, rfl, hc⟩ := h1
  obtain ⟨c2, t2, hrev, hc2⟩ := h2
  unfold pstrip
  rw [List.dropWhile_cons, if_neg (by simp [hc]), hrev, List.dropWhile_cons,
    if_neg (by simp [hc2]), ← hrev, List.reverse_reverse]

theorem pstrip_dataTag {e : List Char} (h : niceEv e = true) :
    pstrip (dataTag ++ e) = dataTag ++ e := by
  obtain ⟨⟨c, t, hrev, hc⟩, hnl, hd⟩ := niceEv_parts h
  apply pstrip_eq_self
  · exact ⟨'d', "ata: ".data ++ e, rfl, by decide⟩
  · exact ⟨c, t ++ dataTag.reverse, by rw [List.reverse_append, hrev]; rfl, hc⟩

theorem procLoop_line {L : List Char} (h : noNL L = true) (R : List Char) :
    procLoop (L ++ '\n' :: R) =
      if dataTag.isPrefixOf (pstrip L) then
        if (pstrip L).drop 6 = doneLit then (R, [])
        else ((procLoop R).1, (pstrip L).drop 6 :: (procLoop R).2)
      else procLoop R := by
  have hR : R.length ≤ L.length + R.length := Nat.le_add_left _ _
  have hlen : (L ++ '\n' :: R).length = L.length + R.length + 1 := by
    simp [List.length_append]; omega
  rcases hpr : procLoop R with ⟨b, o⟩
  simp only [procLoop] at hpr ⊢
  rw [hlen]
  simp only [streamIter, splitFirstLine_append h R,
    streamIter_fuel (L.length + R.length) R.length R hR (Nat.le_refl _), hpr]

theorem procLoop_emptyline (R : List Char) : procLoop ('\n' :: R) = procLoop R := by
  have h := procLoop_line (L := []) (by decide) R
  simp only [List.nil_append] at h
  rw [h, if_neg (by decide)]

theorem procLoop_dataline {e : List Char} (h : niceEv e = true) (R : List Char) :
    procLoop ((dataTag ++ e) ++ '\n' :: R) = ((procLoop R).1, e :: (procLoop R).2) := by
  obtain ⟨-, hnl, hd⟩ := niceEv_parts h
  have hnoNL : noNL (dataTag ++ e) = true := by
    rw [noNL_iff]
    intro x hx
    rcases List.mem_append.mp hx with hx | hx
    · exact noNL_iff.mp (by decide : noNL dataTag = true) x hx
    · exact noNL_iff.mp hnl x hx
  have hdrop : (dataTag ++ e).drop 6 = e := by
    rw [show (6 : Nat) = dataTag.length from rfl, List.drop_left]
  rw [procLoop_line hnoNL R, pstrip_dataTag h,
    if_pos (isPrefixOf_append_self dataTag e), hdrop, if_neg hd]

theorem procLoop_doneline (R : List Char) :
    procLoop ((dataTag ++ doneLit) ++ '\n' :: R) = (R, []) := by
  rw [procLoop_line (by decide) R,
    show pstrip (dataTag ++ doneLit) = dataTag ++ doneLit from by decide,
    if_pos (isPrefixOf_append_self dataTag doneLit),
    show (dataTag ++ doneLit).drop 6 = doneLit from by decide, if_pos rfl]

theorem noNL_append {a b : List Char} : noNL (a ++ b) = (noNL a && noNL b) := by
  simp [noNL, List.all_append]

theorem append_eq_singleton_cases {x y : List Char} {c : Char} (h : x ++ y = [c]) :
    (x = [] ∧ y = [c]) ∨ (x = [c] ∧ y = []) := by
  cases x with
  | nil => exact Or.inl ⟨rfl, by simpa using h⟩
  | cons a as =>
    simp only [List.cons_append, List.cons.injEq] at h
    obtain ⟨rfl, h2⟩ := h
    have h3 := List.append_eq_nil.mp h2
    exact Or.inr ⟨by simp [h3.1], h3.2⟩

/-- If a prefix `P` of `L ++ '\n' :: R` contains a newline (and the line `L`
does not), then `P` covers the whole first line including its newline. -/
theorem consume_line {L P Q R : List Char} (hL : noNL L = true) (hP : noNL P = false)
    (h : P ++ Q = L ++ '\n' :: R) : ∃ P2, P = L ++ '\n' :: P2 ∧ P2 ++ Q = R := by
  have h' : P ++ Q = (L ++ ['\n']) ++ R := by simpa [List.append_assoc] using h
  rcases List.append_eq_append_iff.mp h' with ⟨a, ha1, ha2⟩ | ⟨c, hc1, hc2⟩
  · -- L ++ ['\n'] = P ++ a
    rcases List.append_eq_append_iff.mp ha1.symm with ⟨x, hx1, hx2⟩ | ⟨y, hy1, hy2⟩
    · -- L = P ++ x : impossible, P would be newline-free
      exfalso
      rw [hx1, noNL_append] at hL
      rw [Bool.and_eq_true] at hL
      rw [hL.1] at hP
      simp at hP
    · -- P = L ++ y with ['\n'] = y ++ a
      rcases append_eq_singleton_cases hy2.symm with ⟨hy, hane⟩ | ⟨hy, hane⟩
      · -- y = [] : P = L, impossible
        exfalso
        rw [hy, List.append_nil] at hy1
        rw [hy1, hL] at hP
        simp at hP
      · refine ⟨[], by simpa [hy] using hy1, ?_⟩
        rw [hane, List.nil_append] at ha2
        rw [List.nil_append, ha2]
  · exact ⟨c, by rw [hc1, List.append_assoc]; rfl, hc2.symm⟩

theorem nl_mem_mkStream (es : List (List Char)) : '\n' ∈ mkStream es := by
  unfold mkStream
  refine List.mem_append.mpr (Or.inr ?_)
  refine List.mem_append.mpr (Or.inr ?_)
  exact List.mem_cons_self _ _

theorem mkStream_cons (e : List Char) (es : List (List Char)) :
    mkStream (e :: es) = (dataTag ++ e) ++ '\n' :: ('\n' :: mkStream es) := by
  simp [mkStream, List.append_assoc]

theorem mkStream_nil : mkStream [] = (dataTag ++ doneLit) ++ '\n' :: ['\n'] := by
  simp [mkStream]

/-- Residual shape of an in-progress well-formed stream: either exactly the
remaining stream, or the remaining stream preceded by the blank separator
line of the previous frame. -/
def GoodRes (es : List (List Char)) (s : List Char) : Prop :=
  s = mkStream es ∨ s = '\n' :: mkStream es

/-- Residual shape once the `[DONE]` line has been consumed. -/
def TailRes (s : List Char) : Prop := s = ['\n'] ∨ s = []

/-- Running the inner loop on any prefix `P` of a well-formed stream yields
an initial segment of the event payloads, and leaves a residual that is
again a well-formed remainder (or the post-sentinel tail). -/
theorem procLoop_prefix_main : ∀ (es : List (List Char)), NiceAll es → ∀ (P Q : List Char),
    P ++ Q = mkStream es →
    ∃ j, j ≤ es.length ∧ (procLoop P).2 = es.take j ∧
      ((noNL (procLoop P).1 = true ∧ GoodRes (es.drop j) ((procLoop P).1 ++ Q)) ∨
       (es.drop j = [] ∧ TailRes ((procLoop P).1 ++ Q))) := by
  intro es
  induction es with
  | nil =>
    intro _ P Q hPQ
    by_cases hP : noNL P = true
    · refine ⟨0, Nat.le_refl _, ?_, Or.inl ⟨?_, ?_⟩⟩
      · simp [procLoop_of_noNL hP]
      · rw [procLoop_of_noNL hP]; exact hP
      · rw [procLoop_of_noNL hP]; exact Or.inl hPQ
    · have hPf : noNL P = false := Bool.not_eq_true _ ▸ eq_false_of_ne_true hP
      rw [mkStream_nil] at hPQ
      obtain ⟨P2, rfl, hP2Q⟩ := consume_line (by decide) hPf hPQ
      rw [procLoop_doneline P2]
      exact ⟨0, Nat.le_refl _, rfl, Or.inr ⟨rfl, Or.inl hP2Q⟩⟩
  | cons e es ih =>
    intro hn P Q hPQ
    have hne : niceEv e = true := hn e (by simp)
    have hnes : NiceAll es := fun x hx => hn x (by simp [hx])
    by_cases hP : noNL P = true
    · refine ⟨0, Nat.zero_le _, ?_, Or.inl ⟨?_, ?_⟩⟩
      · simp [procLoop_of_noNL hP]
      · rw [procLoop_of_noNL hP]; exact hP
      · rw [procLoop_of_noNL hP]; exact Or.inl hPQ
    · have hPf : noNL P = false := Bool.not_eq_true _ ▸ eq_false_of_ne_true hP
      rw [mkStream_cons] at hPQ
      have hLnoNL : noNL (dataTag ++ e) = true := by
        rw [noNL_append, Bool.and_eq_true]
        exact ⟨by decide, (niceEv_parts hne).2.1⟩
      obtain ⟨P2, rfl, hP2Q⟩ := consume_line hLnoNL hPf hPQ
      rw [procLoop_dataline hne P2]
      cases P2 with
      | nil =>
        refine ⟨1, by simp, ?_, Or.inl ⟨?_, ?_⟩⟩
        · simp [procLoop_nil]
        · simp [procLoop_nil, noNL]
        · rw [List.nil_append] at hP2Q
          exact Or.inr (by simpa [procLoop_nil] using hP2Q)
      | cons c P3 =>
        have hc : c = '\n' ∧ P3 ++ Q = mkStream es := by
          simpa [List.cons_append] using hP2Q
        obtain ⟨rfl, hP3Q⟩ := hc
        rw [procLoop_emptyline P3]
        obtain ⟨j, hj, hout, hrest⟩ := ih hnes P3 Q hP3Q
        refine ⟨j + 1, Nat.succ_le_succ hj, ?_, ?_⟩
        · simp [List.take_succ_cons, hout]
        · simpa [List.drop_succ_cons] using hrest

/-- Extension of `procLoop_prefix_main` to residuals that start with the
blank separator line. -/
theorem procLoop_prefix (es : List (List Char)) (hn : NiceAll es) (P Q : List Char)
    (h : GoodRes es (P ++ Q)) :
    ∃ j, j ≤ es.length ∧ (procLoop P).2 = es.take j ∧
      ((noNL (procLoop P).1 = true ∧ GoodRes (es.drop j) ((procLoop P).1 ++ Q)) ∨
       (es.drop j = [] ∧ TailRes ((procLoop P).1 ++ Q))) := by
  cases h with
  | inl h => exact procLoop_prefix_main es hn P Q h
  | inr h =>
    cases P with
    | nil =>
      rw [List.nil_append] at h
      refine ⟨0, Nat.zero_le _, by simp [procLoop_nil], Or.inl ⟨by simp [procLoop_nil, noNL], ?_⟩⟩
      rw [procLoop_nil]
      simp only [List.drop_zero, List.nil_append]
      exact Or.inr h
    | cons c P' =>
      have hc : c = '\n' ∧ P' ++ Q = mkStream es := by simpa [List.cons_append] using h
      obtain ⟨rfl, h'⟩ := hc
      rw [procLoop_emptyline P']
      exact procLoop_prefix_main es hn P' Q h'

/-- Invariant of the outer chunk loop: starting from a newline-free buffer
whose unread input completes a well-formed stream, the loop yields exactly
the stream's payloads; once only the post-sentinel tail remains, it yields
nothing more. -/
theorem feedChunks_inv : ∀ (chunks : List (List Char)) (es : List (List Char)), NiceAll es →
    ∀ b : List Char,
    ((noNL b = true ∧ GoodRes es (b ++ chunks.flatten)) → (feedChunks b chunks).2 = es) ∧
    (TailRes (b ++ chunks.flatten) → (feedChunks b chunks).2 = []) := by
  intro chunks
  induction chunks with
  | nil =>
    intro es _ b
    constructor
    · rintro ⟨hb, hg⟩
      exfalso
      rw [List.flatten_nil, List.append_nil] at hg
      have hmem : '\n' ∈ b := by
        cases hg with
        | inl hg => rw [hg]; exact nl_mem_mkStream es
        | inr hg => rw [hg]; simp
      exact (noNL_iff.mp hb '\n' hmem) rfl
    · intro _; rfl
  | cons c cs ih =>
    intro es hn b
    constructor
    · rintro ⟨hb, hg⟩
      have hg' : GoodRes es ((b ++ c) ++ cs.flatten) := by
        rwa [List.flatten_cons, ← List.append_assoc] at hg
      obtain ⟨j, hj, hout, hrest⟩ := procLoop_prefix es hn (b ++ c) cs.flatten hg'
      rcases hpc : procLoop (b ++ c) with ⟨b1, o1⟩
      rcases hfc : feedChunks b1 cs with ⟨b2, o2⟩
      have heq : feedChunks b (c :: cs) = (b2, o1 ++ o2) := by
        simp [feedChunks, hpc, hfc]
      rw [heq]
      rw [hpc] at hout hrest
      simp only at hout hrest
      rcases hrest with ⟨hb1, hgr⟩ | ⟨hdrop, htr⟩
      · have hnd : NiceAll (es.drop j) := fun x hx => hn x (List.drop_subset _ _ hx)
        have h2 := (ih (es.drop j) hnd b1).1 ⟨hb1, hgr⟩
        rw [hfc] at h2
        simp only at h2
        rw [hout, h2, List.take_append_drop]
      · have hnd : NiceAll (es.drop j) := fun x hx => hn x (List.drop_subset _ _ hx)
        have h2 := (ih (es.drop j) hnd b1).2 htr
        rw [hfc] at h2
        simp only at h2
        have hlen : es.length ≤ j := by
          by_contra hlt
          push_neg at hlt
          have : es.drop j ≠ [] := by
            intro hnil
            rw [List.drop_eq_nil_iff] at hnil
            omega
          exact this hdrop
        rw [hout, h2, List.take_of_length_le hlen, List.append_nil]
    · intro ht
      have ht' : TailRes ((b ++ c) ++ cs.flatten) := by
        rwa [List.flatten_cons, ← List.append_assoc] at ht
      rcases hpc : procLoop (b ++ c) with ⟨b1, o1⟩
      rcases hfc : feedChunks b1 cs with ⟨b2, o2⟩
      have heq : feedChunks b (c :: cs) = (b2, o1 ++ o2) := by
        simp [feedChunks, hpc, hfc]
      rw [heq]
      have hnil : NiceAll [] := fun x hx => absurd hx (List.not_mem_nil x)
      cases ht' with
      | inr hz =>
        have h1 : b ++ c = [] := (List.append_eq_nil.mp hz).1
        have h2 : cs.flatten = [] := (List.append_eq_nil.mp hz).2
        have hpl : procLoop (b ++ c) = ([], []) := by rw [h1]; rfl
        rw [hpc] at hpl
        injection hpl with hb1 ho1
        have h3 := (ih [] hnil b1).2 (by rw [hb1, h2]; exact Or.inr rfl)
        rw [hfc] at h3
        simp only at h3
        simp [ho1, h3]
      | inl hone =>
        rcases append_eq_singleton_cases hone with ⟨hbc, hcf⟩ | ⟨hbc, hcf⟩
        · have hpl : procLoop (b ++ c) = ([], []) := by rw [hbc]; rfl
          rw [hpc] at hpl
          injection hpl with hb1 ho1
          have h3 := (ih [] hnil b1).2 (by rw [hb1, hcf]; exact Or.inl rfl)
          rw [hfc] at h3
          simp only at h3
          simp [ho1, h3]
        · have hpl : procLoop (b ++ c) = ([], []) := by rw [hbc]; decide
          rw [hpc] at hpl
          injection hpl with hb1 ho1
          have h3 := (ih [] hnil b1).2 (by rw [hb1, hcf]; exact Or.inr rfl)
          rw [hfc] at h3
          simp only at h3
          simp [ho1, h3]

/-- Claim C3: for every well-formed event stream (events framed as
`data: <payload>\n\n`, terminated by `data: [DONE]\n\n`) and every way of
splitting it into chunks -- including mid-line, mid-frame, or one byte at a
time -- the pump of `Model._stream` emits exactly the same ordered list of
frames as feeding the whole stream in a single call (namely the event
payloads in order); a dangling partial line at a chunk boundary is retained
in the buffer and completed by the next chunk, never discarded. -/
theorem c3_chunk_split_invariance (es : List (List Char)) (hn : NiceAll es)
    (chunks : List (List Char)) (hc : chunks.flatten = mkStream es) :
    (feedChunks [] chunks).2 = (procLoop (mkStream es)).2 ∧
    (feedChunks [] chunks).2 = es := by
  have hall : (feedChunks [] chunks).2 = es :=
    (feedChunks_inv chunks es hn []).1 ⟨rfl, by rw [List.nil_append, hc]; exact Or.inl rfl⟩
  have hsingle : (feedChunks [] [mkStream es]).2 = es := by
    refine (feedChunks_inv [mkStream es] es hn []).1 ⟨rfl, ?_⟩
    simp only [List.flatten_cons, List.flatten_nil, List.append_nil, List.nil_append]
    exact Or.inl rfl
  have hs2 : (feedChunks [] [mkStream es]).2 = (procLoop (mkStream es)).2 := by
    rcases hpc : procLoop (mkStream es) with ⟨b1, o1⟩
    have hpc' : procLoop ([] ++ mkStream es) = (b1, o1) := by rwa [List.nil_append]
    simp [feedChunks, hpc', hpc]
  constructor
  · rw [hall, ← hs2, hsingle]
  · exact hall

theorem c3_chunk_split_invariance_witness :
    NiceAll ["x".data] ∧
    ((mkStream ["x".data]).map (fun c => [c])).flatten = mkStream ["x".data] ∧
    (feedChunks [] ((mkStream ["x".data]).map (fun c => [c]))).2 =
      (procLoop (mkStream ["x".data])).2 :=
  ⟨by decide, by decide,
    (c3_chunk_split_invariance ["x".data] (by decide)
      ((mkStream ["x".data]).map (fun c => [c])) (by decide)).1⟩

theorem chatLoop_doneline (X : List Char) :
    chatLoop ((dataTag ++ doneLit) ++ '\n' :: X) = (X, ["data: [DONE]\n\n".data], true) := by
  have hlen : ((dataTag ++ doneLit) ++ '\n' :: X).length =
      ((dataTag ++ doneLit).length + X.length) + 1 := by
    simp [List.length_append]; omega
  unfold chatLoop
  rw [hlen]
  simp only [chatIter, splitFirstLine_append (by decide : noNL (dataTag ++ doneLit) = true) X]
  rw [show pstrip (dataTag ++ doneLit) = dataTag ++ doneLit from by decide,
    if_pos (isPrefixOf_append_self dataTag doneLit),
    show (dataTag ++ doneLit).drop 6 = doneLit from by decide, if_pos rfl]

theorem chatFeedAll_halted (b : List Char) (cs : List (List Char)) :
    chatFeedAll ⟨b, true⟩ cs = (⟨b, true⟩, []) := by
  induction cs with
  | nil => rfl
  | cons c cs ih => simp [chatFeedAll, chatFeed, ih]

/-- Claim C2 (counterexample): in `Model._stream` the sentinel does not
permanently stop processing: the `break` at utils.py line 247 only leaves
the inner loop, so a `data:` line fed after the `[DONE]` line is still
yielded as a frame on the next feed (and no end-of-stream frame is ever
emitted for the sentinel). -/
theorem c2_sentinel_counterexample :
    (feedChunks [] ["data: [DONE]\n".data, "data: X\n".data]).2 = ["X".data] := by decide

/-- Claim C2 (amended): in the chat router's pump the claim holds -- a
complete `data: [DONE]` line yields exactly one terminal marker frame and
the generator returns, after which every further feed is a no-op; in
`Model._stream`, however, the sentinel only stops processing of the current
buffer (emitting nothing), leaving the rest of the buffer to be processed
by subsequent feeds. -/
theorem c2_sentinel_amended :
    (∀ X : List Char, chatLoop ((dataTag ++ doneLit) ++ '\n' :: X) =
      (X, ["data: [DONE]\n\n".data], true)) ∧
    (∀ (b : List Char) (cs : List (List Char)), chatFeedAll ⟨b, true⟩ cs = (⟨b, true⟩, [])) ∧
    (∀ X : List Char, procLoop ((dataTag ++ doneLit) ++ '\n' :: X) = (X, [])) :=
  ⟨chatLoop_doneline, chatFeedAll_halted, procLoop_doneline⟩

/-- Claim C8 (counterexample): a `data:` line whose payload is not valid
JSON is not skipped: `Model._stream` never parses payloads, so the
malformed payload `notjson` is delivered downstream like any other frame
(processing does continue with the following frame). -/
theorem c8_malformed_counterexample :
    (procLoop "data: notjson\ndata: ok\n".data).2 = ["notjson".data, "ok".data] ∧
    "notjson".data ∈ (procLoop "data: notjson\ndata: ok\n".data).2 := by
  constructor <;> decide

/-- Claim C8 (amended): the pump never JSON-parses payloads: every `data:`
line whose payload is not the sentinel -- malformed JSON included -- is
delivered downstream verbatim, and processing continues with the rest of
the buffer; a single bad frame never terminates the stream. -/
theorem c8_malformed_amended (e : List Char) (R : List Char) (h : niceEv e = true) :
    procLoop ((dataTag ++ e) ++ '\n' :: R) = ((procLoop R).1, e :: (procLoop R).2) :=
  procLoop_dataline h R

theorem c8_malformed_amended_witness :
    niceEv "notjson".data = true ∧
    procLoop ((dataTag ++ "notjson".data) ++ '\n' :: "data: ok\n".data) =
      ((procLoop "data: ok\n".data).1, "notjson".data :: (procLoop "data: ok\n".data).2) :=
  ⟨by decide, c8_malformed_amended "notjson".data "data: ok\n".data (by decide)⟩

/-- Result record returned by `MCPClient.call_tool` (mcp_client.py lines
98-121): success flag, payload or error message, plus the echoed tool name
and arguments.  Payloads and argument dictionaries are abstracted as
strings. -/
structure ToolResult where
  success : Bool
  content : Option String
  error : Option String
  tool_name : String
  tool_args : String
deriving DecidableEq, Repr

/-- Outcome of the underlying `session.call_tool` awaited under
`asyncio.wait_for` (mcp_client.py lines 93-96): a result payload, a
timeout, or a raised exception with message. -/
inductive CallOutcome where
  | ok (payload : String)
  | timeout
  | exn (msg : String)
deriving DecidableEq, Repr

/-- `MCPClient.call_tool` (mcp_client.py lines 84-121).  When the client is
not connected or has no session it raises (line 89, modelled as
`Except.error`); otherwise the call outcome is normalized into a
`ToolResult`: success wraps the payload (lines 98-103), a timeout produces
the fixed message `Tool <name> timed out after 30 seconds` (line 105), and
any other exception produces `str(e)` (line 118). -/
def call_tool (connected : Bool) (hasSession : Bool) (tool_name : String)
    (tool_args : String) (outcome : CallOutcome) : Except String ToolResult :=
  if !connected || !hasSession then Except.error "MCP client not connected"
  else
    match outcome with
    | .ok p => Except.ok ⟨true, some p, none, tool_name, tool_args⟩
    | .timeout => Except.ok ⟨false, none,
        some ("Tool " ++ tool_name ++ " timed out after 30 seconds"), tool_name, tool_args⟩
    | .exn m => Except.ok ⟨false, none, some m, tool_name, tool_args⟩

/-- The `ToolResult` produced by `call_tool` for a connected client. -/
def toolResultOf (tool_name tool_args : String) : CallOutcome → ToolResult
  | .ok p => ⟨true, some p, none, tool_name, tool_args⟩
  | .timeout => ⟨false, none,
      some ("Tool " ++ tool_name ++ " timed out after 30 seconds"), tool_name, tool_args⟩
  | .exn m => ⟨false, none, some m, tool_name, tool_args⟩

theorem call_tool_connected (n a : String) (o : CallOutcome) :
    call_tool true true n a o = Except.ok (toolResultOf n a o) := by
  cases o <;> rfl

/-- Claim C1 (counterexample): `call_tool` on a client that is not
connected does not return a `{success: false, error: ...}` record -- it
raises `Exception("MCP client not connected")` (mcp_client.py line 89),
which propagates to the caller. -/
theorem c1_not_connected_counterexample :
    call_tool false true "read_file" "x" (CallOutcome.ok "payload") =
      Except.error "MCP client not connected" := rfl

/-- Claim C1 (amended): for a connected client with a live session,
`call_tool` always returns a `ToolResult` and never raises -- success
wraps the payload as `{success: true, content: ...}`, and a timeout or any
other failure yields `{success: false, error: <message>}`; but for a
client that is not connected (or has no session) the call raises
`Exception("MCP client not connected")` instead of returning a failure
record. -/
theorem c1_executor_amended :
    (∀ (n a : String) (o : CallOutcome), ∃ r : ToolResult,
      call_tool true true n a o = Except.ok r ∧
      (match o with
       | .ok p => r.success = true ∧ r.content = some p
       | .timeout => r.success = false ∧
           r.error = some ("Tool " ++ n ++ " timed out after 30 seconds")
       | .exn m => r.success = false ∧ r.error = some m)) ∧
    (∀ (n a : String) (o : CallOutcome) (hs : Bool),
      call_tool false hs n a o = Except.error "MCP client not connected") := by
  constructor
  · intro n a o
    refine ⟨toolResultOf n a o, call_tool_connected n a o, ?_⟩
    cases o <;> exact ⟨rfl, rfl⟩
  · intro n a o hs
    rfl

/-- Claim C6 (counterexample): on timeout the error message is not
`<name> timed out`: mcp_client.py line 105 produces
`Tool <name> timed out after 30 seconds` (even though the actual
`asyncio.wait_for` timeout at line 95 is 5 seconds). -/
theorem c6_timeout_message_counterexample :
    call_tool true true "search" "q" CallOutcome.timeout =
      Except.ok ⟨false, none, some "Tool search timed out after 30 seconds", "search", "q"⟩ ∧
    ("Tool search timed out after 30 seconds" : String) ≠ "search timed out" :=
  ⟨rfl, by decide⟩

/-- Outcome of one attempt of the connect sequence in
`MCPClient.connect_to_server` (mcp_client.py lines 36-76): the four awaited
steps (spawn stdio transport, open session, initialize, list tools) each
run under a 10-second `asyncio.wait_for`; a timeout or an exception at any
step is caught and the method returns `False`, otherwise `True`. -/
inductive ConnectResult where
  | success
  | timeoutAt (step : Fin 4)
  | failAt (step : Fin 4)
deriving DecidableEq, Repr

/-- `MCPClient.connect_to_server`: `True` exactly when every step of the
connect sequence succeeded. -/
def connect_to_server : ConnectResult → Bool
  | .success => true
  | .timeoutAt _ => false
  | .failAt _ => false

/-- The cache key computed at mcp_client.py line 144:
`f"{server_type}_{hash(str(custom_config) if custom_config else chr(39)+chr(39))}"`.
`pyHash` stands for Python's builtin `hash` on strings; a custom config is
abstracted by its `str()` form, with `none` covering both `None` and falsy
configs. -/
def clientKey (pyHash : String → Int) (server_type : String)
    (custom_config : Option String) : String :=
  server_type ++ "_" ++ toString (pyHash (match custom_config with
    | some c => c
    | none => ""))

/-- `MCPManager.default_configs` (mcp_client.py lines 133-140): only the
`filesystem` entry exists; its value is abstracted by its `str()` form. -/
def defaultConfigs (server_type : String) : Option String :=
  if server_type = "filesystem" then
    some "npx -y @modelcontextprotocol/server-filesystem ."
  else none

/-- Manager state: the `clients` dict (an association list from cache key
to a client identity), a counter producing fresh client identities, and a
count of invocations of the connect sequence (bumped on every
`connect_to_server` call, i.e. every transport spawn). -/
structure MState where
  clients : List (String × Nat)
  nextId : Nat
  attempts : Nat
deriving DecidableEq, Repr

/-- `MCPManager.get_or_create_client` (mcp_client.py lines 142-159).
Returns the cached client when the key is present; otherwise resolves the
config (`custom_config or default_configs.get(server_type)`), raises
`ValueError` when none is found (line 151), and otherwise runs the connect
sequence: on success the new client is stored under the key and returned,
on failure nothing is stored and `Exception` is raised (line 157). -/
def getOrCreate (pyHash : String → Int) (cr : ConnectResult) (server_type : String)
    (custom_config : Option String) (s : MState) : MState × Except String Nat :=
  let key := clientKey pyHash server_type custom_config
  match s.clients.lookup key with
  | some cid => (s, Except.ok cid)
  | none =>
    match custom_config.orElse (fun _ => defaultConfigs server_type) with
    | none => (s, Except.error ("No configuration found for server type: " ++ server_type))
    | some _ =>
      if connect_to_server cr then
        (⟨(key, s.nextId) :: s.clients, s.nextId + 1, s.attempts + 1⟩, Except.ok s.nextId)
      else
        (⟨s.clients, s.nextId, s.attempts + 1⟩,
          Except.error ("Failed to connect to " ++ server_type ++ " MCP server"))

/-- Claim C4 (amended): a second `get_or_create_client` with the same
server type and config returns the same cached client without re-invoking
the connect sequence (the state, in particular the count of connect
attempts, is unchanged); distinct keys index distinct entries of the dict;
but the key derivation itself does not separate all distinct
configurations: two distinct configs whose hashes coincide share one key
and hence one cache entry. -/
theorem c4_cache_reuse_amended (pyHash : String → Int) (cr cr2 : ConnectResult)
    (st : String) (cfg : Option String) (s s1 : MState) (cid : Nat)
    (h : getOrCreate pyHash cr st cfg s = (s1, Except.ok cid)) :
    getOrCreate pyHash cr2 st cfg s1 = (s1, Except.ok cid) ∧
    (getOrCreate pyHash cr2 st cfg s1).1.attempts = s1.attempts := by
  have hkey : s1.clients.lookup (clientKey pyHash st cfg) = some cid := by
    simp only [getOrCreate] at h
    split at h
    next c hl =>
      have h1 : s = s1 := congrArg Prod.fst h
      have h2 : (Except.ok c : Except String Nat) = Except.ok cid := congrArg Prod.snd h
      injection h2 with h3
      rw [← h1, hl, h3]
    next hl =>
      split at h
      next hc => exact absurd (congrArg Prod.snd h) (by simp)
      next c0 hc =>
        by_cases hcr : connect_to_server cr = true
        · rw [if_pos hcr] at h
          have h1 : (⟨(clientKey pyHash st cfg, s.nextId) :: s.clients,
              s.nextId + 1, s.attempts + 1⟩ : MState) = s1 := congrArg Prod.fst h
          have h2 : (Except.ok s.nextId : Except String Nat) = Except.ok cid :=
            congrArg Prod.snd h
          injection h2 with h3
          rw [← h1, ← h3]
          simp [List.lookup]
        · rw [if_neg hcr] at h
          exact absurd (congrArg Prod.snd h) (by simp)
  have hres : getOrCreate pyHash cr2 st cfg s1 = (s1, Except.ok cid) := by
    simp only [getOrCreate, hkey]
  exact ⟨hres, by rw [hres]⟩

theorem c4_cache_reuse_witness :
    getOrCreate (fun _ => 0) ConnectResult.success "filesystem" none ⟨[], 0, 0⟩ =
      (⟨[("filesystem_0", 0)], 1, 1⟩, Except.ok 0) ∧
    (getOrCreate (fun _ => 0) (ConnectResult.failAt 0) "filesystem" none
        ⟨[("filesystem_0", 0)], 1, 1⟩ = (⟨[("filesystem_0", 0)], 1, 1⟩, Except.ok 0) ∧
      (getOrCreate (fun _ => 0) (ConnectResult.failAt 0) "filesystem" none
        ⟨[("filesystem_0", 0)], 1, 1⟩).1.attempts = 1) :=
  ⟨rfl, c4_cache_reuse_amended (fun _ => 0) ConnectResult.success (ConnectResult.failAt 0)
    "filesystem" none ⟨[], 0, 0⟩ ⟨[("filesystem_0", 0)], 1, 1⟩ 0 rfl⟩

/-- Claim C4 (counterexample): the cache key -- the server type plus the
hash of the config string -- does not injectively separate distinct
`(server_type, config)` identities: two distinct configs whose hashes
coincide produce the same key, so the mapping stores them in a single
cache entry.  Exhibited with a hash function having a concrete collision;
Python's builtin string hash maps infinitely many strings into a bounded
integer range, so it necessarily has such collisions too
(`clientKey_collision_of_bounded_hash`). -/
theorem c4_distinct_configs_counterexample :
    (some "cfgA" : Option String) ≠ some "cfgB" ∧
    clientKey (fun _ => 0) "filesystem" (some "cfgA") =
      clientKey (fun _ => 0) "filesystem" (some "cfgB") :=
  ⟨by decide, rfl⟩

/-- Any hash into a bounded integer range identifies two distinct strings. -/
theorem exists_string_pair_same_hash (h : String → Int) (B : Nat)
    (hb : ∀ s, -(B : Int) ≤ h s ∧ h s < B) :
    ∃ a b : String, a ≠ b ∧ h a = h b := by
  have hinj : Function.Injective (fun n : Nat => String.mk (List.replicate n 'a')) := by
    intro m n hmn
    have := congrArg (fun s : String => s.data.length) hmn
    simpa using this
  have : Infinite String := Infinite.of_injective _ hinj
  let f : String → Fin (2 * B) := fun s =>
    ⟨(h s + B).toNat, by
      have h1 := (hb s).1
      have h2 := (hb s).2
      omega⟩
  obtain ⟨a, b, hab, hfab⟩ := Finite.exists_ne_map_eq_of_infinite f
  refine ⟨a, b, hab, ?_⟩
  have hv : (h a + B).toNat = (h b + B).toNat := congrArg Fin.val hfab
  have h1a := (hb a).1
  have h1b := (hb b).1
  omega

/-- Hence for any bounded hash there are distinct configs sharing a key. -/
theorem clientKey_collision_of_bounded_hash (h : String → Int) (B : Nat)
    (hb : ∀ s, -(B : Int) ≤ h s ∧ h s < B) (st : String) :
    ∃ c1 c2 : String, c1 ≠ c2 ∧
      clientKey h st (some c1) = clientKey h st (some c2) := by
  obtain ⟨a, b, hab, hh⟩ := exists_string_pair_same_hash h B hb
  exact ⟨a, b, hab, by simp [clientKey, hh]⟩

/-- Claim C5: if any step of the connect sequence fails or times out,
`get_or_create_client` raises a connection error and the mapping is left
unchanged (the partially-initialized client is never stored), so a
subsequent call for the same key runs a fresh connect attempt (the count
of connect invocations increases again) rather than reusing the failed
connection. -/
theorem c5_failed_connect_not_cached (pyHash : String → Int) (cr : ConnectResult)
    (hcr : cr ≠ ConnectResult.success) (st : String) (cfg : Option String) (s : MState)
    (hk : s.clients.lookup (clientKey pyHash st cfg) = none)
    (hcfg : (cfg.orElse (fun _ => defaultConfigs st)).isSome = true) :
    getOrCreate pyHash cr st cfg s =
      (⟨s.clients, s.nextId, s.attempts + 1⟩,
        Except.error ("Failed to connect to " ++ st ++ " MCP server")) ∧
    (∀ cr2 : ConnectResult,
      (getOrCreate pyHash cr2 st cfg ⟨s.clients, s.nextId, s.attempts + 1⟩).1.attempts =
        s.attempts + 2) := by
  have hfail : connect_to_server cr = false := by
    cases cr with
    | success => exact absurd rfl hcr
    | timeoutAt k => rfl
    | failAt k => rfl
  obtain ⟨c, hc⟩ := Option.isSome_iff_exists.mp hcfg
  constructor
  · simp [getOrCreate, hk, hc, hfail]
  · intro cr2
    have hk2 : (⟨s.clients, s.nextId, s.attempts + 1⟩ : MState).clients.lookup
        (clientKey pyHash st cfg) = none := hk
    cases hcs : connect_to_server cr2 <;> simp [getOrCreate, hk2, hc, hcs]

theorem c5_failed_connect_witness :
    (ConnectResult.failAt 0 ≠ ConnectResult.success) ∧
    (MState.mk [] 0 0).clients.lookup (clientKey (fun _ => 0) "filesystem" none) = none ∧
    ((none : Option String).orElse (fun _ => defaultConfigs "filesystem")).isSome = true ∧
    (getOrCreate (fun _ => 0) (ConnectResult.failAt 0) "filesystem" none ⟨[], 0, 0⟩ =
      (⟨[], 0, 1⟩, Except.error "Failed to connect to filesystem MCP server") ∧
     ∀ cr2 : ConnectResult,
       (getOrCreate (fun _ => 0) cr2 "filesystem" none ⟨[], 0, 1⟩).1.attempts = 2) :=
  ⟨by decide, rfl, rfl,
    c5_failed_connect_not_cached (fun _ => 0) (ConnectResult.failAt 0) (by decide)
      "filesystem" none ⟨[], 0, 0⟩ rfl rfl⟩

/-- Claim C10: for a server type with no entry in the default
configurations and no custom config supplied, `get_or_create_client`
raises `ValueError("No configuration found for server type: ...")` before
the connect sequence runs (no transport is spawned), and the manager state
-- in particular the key-to-client mapping -- is unchanged. -/
theorem c10_unknown_server_type (pyHash : String → Int) (cr : ConnectResult) (st : String)
    (s : MState) (hd : defaultConfigs st = none)
    (hk : s.clients.lookup (clientKey pyHash st none) = none) :
    getOrCreate pyHash cr st none s =
      (s, Except.error ("No configuration found for server type: " ++ st)) := by
  simp [getOrCreate, hk, Option.orElse, hd]

theorem c10_unknown_server_type_witness :
    defaultConfigs "cmu_api" = none ∧
    (MState.mk [] 0 0).clients.lookup (clientKey (fun _ => 0) "cmu_api" none) = none ∧
    getOrCreate (fun _ => 0) ConnectResult.success "cmu_api" none ⟨[], 0, 0⟩ =
      (⟨[], 0, 0⟩, Except.error "No configuration found for server type: cmu_api") :=
  ⟨rfl, rfl,
    c10_unknown_server_type (fun _ => 0) ConnectResult.success "cmu_api" ⟨[], 0, 0⟩ rfl rfl⟩

/-- A tool call as relayed in the approval request (chat.py lines
173-175): an id, a function name, and a JSON-encoded arguments string. -/
structure ToolCall where
  id : String
  name : String
  arguments : String
deriving DecidableEq, Repr

/-- A message of the conversation array built by the approval endpoint
(chat.py lines 129-183): role, the `tool_call_id`/`name` fields of
`role=tool` messages, the content string, and the `tool_calls` list of the
synthesized assistant message. -/
structure ChatMsg where
  role : String
  tool_call_id : Option String
  name : Option String
  content : String
  tool_calls : List ToolCall
deriving DecidableEq, Repr

/-- The argument value obtained from
`json.loads(tool_call.function.arguments)` when parsing succeeds
(chat.py line 175); `parse` stands for `json.loads`. -/
def argOf (parse : String → Except String String) (c : ToolCall) : String :=
  match parse c.arguments with
  | .ok a => a
  | .error _ => ""

/-- The `role=tool` message appended for one executed call (chat.py lines
178-183): content is `json.dumps(tool_result)` on success and
`Error: <message>` on failure.  `env` is the MCP server behaviour (call
outcome per tool name and arguments); `dump` stands for `json.dumps` on
result records. -/
def toolMsgOf (parse : String → Except String String)
    (env : String → String → CallOutcome) (dump : ToolResult → String)
    (c : ToolCall) : ChatMsg :=
  let a := argOf parse c
  let r := toolResultOf c.name a (env c.name a)
  ⟨"tool", some c.id, some c.name,
    if r.success then dump r else "Error: " ++ (r.error.getD ""), []⟩

/-- The tool-execution loop of the approval endpoint (chat.py lines
172-183): for each call in listed order, parse the arguments
(`json.loads`, whose exception aborts the generator), execute through
`call_tool` on the connected client, and append the `role=tool` message.
Returns the `(name, args)` pairs actually executed, in execution order,
and the appended messages (or the raised error). -/
def toolLoopT (parse : String → Except String String)
    (env : String → String → CallOutcome) (dump : ToolResult → String) :
    List ToolCall → List (String × String) × Except String (List ChatMsg)
  | [] => ([], Except.ok [])
  | c :: cs =>
    match parse c.arguments with
    | .error e => ([], Except.error e)
    | .ok args =>
      match call_tool true true c.name args (env c.name args) with
      | .error e => ([], Except.error e)
      | .ok r =>
        match toolLoopT parse env dump cs with
        | (ex, rest) =>
          ((c.name, args) :: ex,
            rest.map (fun ms =>
              (⟨"tool", some c.id, some c.name,
                if r.success then dump r else "Error: " ++ (r.error.getD ""), []⟩ : ChatMsg) :: ms))

/-- The synthesized assistant message carrying the round's tool calls
(chat.py lines 166-170). -/
def assistantMsg (calls : List ToolCall) : ChatMsg := ⟨"assistant", none, none, "", calls⟩

/-- Observable outcome of the streaming approval endpoint: the frames
yielded to the caller, the message array of the second upstream request
(`none` when no second request is issued), and the `(name, args)` pairs of
the tool calls actually executed, in execution order. -/
structure StreamOutcome where
  frames : List (List Char)
  secondRequest : Option (List ChatMsg)
  toolsExecuted : List (String × String)
deriving DecidableEq, Repr

/-- The approved branch of `approve_tool_calls_streaming.event_generator`
(chat.py lines 120-222): obtain the connected client (`connect` is the
outcome of `get_or_create_client`; an exception is caught by the
generator's `except` clause and yielded as a single error frame), execute
the tool calls, build the second request from the prior conversation
`base`, the synthesized assistant message and the tool messages, and pump
the second upstream response (`upstream` chunks) through a fresh
reassembler.  `dumpE` stands for `json.dumps` of the error object at
chat.py line 220. -/
def approvedFlow (connect : Except String Unit) (parse : String → Except String String)
    (env : String → String → CallOutcome) (dump : ToolResult → String)
    (dumpE : String → String) (base : List ChatMsg) (calls : List ToolCall)
    (upstream : List (List Char)) : StreamOutcome :=
  match connect with
  | .error e => ⟨[("data: " ++ dumpE e ++ "\n\n").data], none, []⟩
  | .ok _ =>
    match toolLoopT parse env dump calls with
    | (executed, .error e) => ⟨[("data: " ++ dumpE e ++ "\n\n").data], none, executed⟩
    | (executed, .ok tmsgs) =>
      ⟨(chatFeedAll ⟨[], false⟩ upstream).2,
        some (base ++ assistantMsg calls :: tmsgs), executed⟩

/-- The literal yielded first by the decline generator (chat.py lines
109-115): `json.dumps` of the fixed choices object. -/
def declineText : String :=
  "\x7b\"choices\": [\x7b\"delta\": \x7b\"content\": \"Tool calls were declined by the user.\"\x7d\x7d]\x7d"

/-- `approve_tool_calls_streaming` (chat.py lines 106-224): when the
request is not approved, the decline generator yields the fixed decline
chunk followed by the terminal `data: [DONE]` marker -- no client is
obtained, no tool is executed and no upstream request is made; when
approved, the event generator runs the approved flow. -/
def approveEndpoint (approved : Bool) (connect : Except String Unit)
    (parse : String → Except String String) (env : String → String → CallOutcome)
    (dump : ToolResult → String) (dumpE : String → String) (base : List ChatMsg)
    (calls : List ToolCall) (upstream : List (List Char)) : StreamOutcome :=
  if approved then approvedFlow connect parse env dump dumpE base calls upstream
  else ⟨[declineText.data, "data: [DONE]\n\n".data], none, []⟩

/-- With parseable arguments and a connected client, the tool loop is the
mapped list of per-call tool messages, in order. -/
theorem toolLoopT_eq (parse : String → Except String String)
    (env : String → String → CallOutcome) (dump : ToolResult → String)
    (calls : List ToolCall) (h : ∀ c ∈ calls, ∃ a, parse c.arguments = Except.ok a) :
    toolLoopT parse env dump calls =
      (calls.map (fun c => (c.name, argOf parse c)),
       Except.ok (calls.map (toolMsgOf parse env dump))) := by
  induction calls with
  | nil => rfl
  | cons c cs ih =>
    obtain ⟨a, ha⟩ := h c (by simp)
    have hcs : ∀ x ∈ cs, ∃ a, parse x.arguments = Except.ok a :=
      fun x hx => h x (by simp [hx])
    simp only [toolLoopT, ha, call_tool_connected, ih hcs, List.map_cons, Except.map]
    simp [toolMsgOf, argOf, ha]

/-- Claim C7: when the approval request carries `approved = false`, the
endpoint makes no second upstream completion request and executes no tool
call: it yields exactly one caller-visible frame stating the tool calls
were declined, followed by the terminal `data: [DONE]` end-of-stream
marker. -/
theorem c7_decline_no_second_request (connect : Except String Unit)
    (parse : String → Except String String) (env : String → String → CallOutcome)
    (dump : ToolResult → String) (dumpE : String → String) (base : List ChatMsg)
    (calls : List ToolCall) (upstream : List (List Char)) :
    approveEndpoint false connect parse env dump dumpE base calls upstream =
      ⟨[declineText.data, "data: [DONE]\n\n".data], none, []⟩ := rfl

/-- Claim C9: for every approved list of tool calls (with parseable
arguments, on a connected client), the orchestrator executes the calls
sequentially in exactly the order the model listed them, appends the
corresponding `role=tool` result messages to the conversation in that same
order -- the i-th tool message carries the i-th call's id and name -- and
only then issues the second upstream request carrying exactly those
messages after the prior conversation and the synthesized assistant
message. -/
theorem c9_sequential_in_order (parse : String → Except String String)
    (env : String → String → CallOutcome) (dump : ToolResult → String)
    (dumpE : String → String) (base : List ChatMsg) (calls : List ToolCall)
    (upstream : List (List Char))
    (h : ∀ c ∈ calls, ∃ a, parse c.arguments = Except.ok a) :
    ∃ tmsgs,
      approveEndpoint true (Except.ok ()) parse env dump dumpE base calls upstream =
        ⟨(chatFeedAll ⟨[], false⟩ upstream).2,
          some (base ++ assistantMsg calls :: tmsgs),
          calls.map (fun c => (c.name, argOf parse c))⟩ ∧
      tmsgs.length = calls.length ∧
      ∀ i (hi : i < calls.length),
        tmsgs[i]? = some (toolMsgOf parse env dump (calls.get ⟨i, hi⟩)) ∧
        (toolMsgOf parse env dump (calls.get ⟨i, hi⟩)).role = "tool" ∧
        (toolMsgOf parse env dump (calls.get ⟨i, hi⟩)).name =
          some (calls.get ⟨i, hi⟩).name ∧
        (toolMsgOf parse env dump (calls.get ⟨i, hi⟩)).tool_call_id =
          some (calls.get ⟨i, hi⟩).id := by
  refine ⟨calls.map (toolMsgOf parse env dump), ?_, by simp, ?_⟩
  · simp [approveEndpoint, approvedFlow, toolLoopT_eq parse env dump calls h]
  · intro i hi
    refine ⟨?_, rfl, rfl, rfl⟩
    rw [List.getElem?_map, List.getElem?_eq_getElem hi]
    rfl

theorem c9_sequential_in_order_witness :
    (∀ c ∈ [ToolCall.mk "id1" "search" "argsA", ToolCall.mk "id2" "fetch" "argsB"],
      ∃ a, (Except.ok c.arguments : Except String String) = Except.ok a) ∧
    (∃ tmsgs,
      approveEndpoint true (Except.ok ()) (fun s => Except.ok s)
          (fun _ _ => CallOutcome.ok "r") (fun _ => "d") (fun e => e) []
          [ToolCall.mk "id1" "search" "argsA", ToolCall.mk "id2" "fetch" "argsB"] [] =
        ⟨(chatFeedAll ⟨[], false⟩ ([] : List (List Char))).2,
          some ([] ++ assistantMsg [ToolCall.mk "id1" "search" "argsA",
            ToolCall.mk "id2" "fetch" "argsB"] :: tmsgs),
          [ToolCall.mk "id1" "search" "argsA",
            ToolCall.mk "id2" "fetch" "argsB"].map
              (fun c => (c.name, argOf (fun s => Except.ok s) c))⟩ ∧
      tmsgs.length = 2 ∧
      ∀ i (hi : i < ([ToolCall.mk "id1" "search" "argsA",
          ToolCall.mk "id2" "fetch" "argsB"] : List ToolCall).length),
        tmsgs[i]? = some (toolMsgOf (fun s => Except.ok s)
          (fun _ _ => CallOutcome.ok "r") (fun _ => "d")
          (([ToolCall.mk "id1" "search" "argsA",
            ToolCall.mk "id2" "fetch" "argsB"] : List ToolCall).get ⟨i, hi⟩)) ∧
        (toolMsgOf (fun s => Except.ok s) (fun _ _ => CallOutcome.ok "r") (fun _ => "d")
          (([ToolCall.mk "id1" "search" "argsA",
            ToolCall.mk "id2" "fetch" "argsB"] : List ToolCall).get ⟨i, hi⟩)).role = "tool" ∧
        (toolMsgOf (fun s => Except.ok s) (fun _ _ => CallOutcome.ok "r") (fun _ => "d")
          (([ToolCall.mk "id1" "search" "argsA",
            ToolCall.mk "id2" "fetch" "argsB"] : List ToolCall).get ⟨i, hi⟩)).name =
          some (([ToolCall.mk "id1" "search" "argsA",
            ToolCall.mk "id2" "fetch" "argsB"] : List ToolCall).get ⟨i, hi⟩).name ∧
        (toolMsgOf (fun s => Except.ok s) (fun _ _ => CallOutcome.ok "r") (fun _ => "d")
          (([ToolCall.mk "id1" "search" "argsA",
            ToolCall.mk "id2" "fetch" "argsB"] : List ToolCall).get ⟨i, hi⟩)).tool_call_id =
          some (([ToolCall.mk "id1" "search" "argsA",
            ToolCall.mk "id2" "fetch" "argsB"] : List ToolCall).get ⟨i, hi⟩).id) :=
  ⟨fun c _ => ⟨c.arguments, rfl⟩,
    c9_sequential_in_order (fun s => Except.ok s) (fun _ _ => CallOutcome.ok "r")
      (fun _ => "d") (fun e => e) []
      [ToolCall.mk "id1" "search" "argsA", ToolCall.mk "id2" "fetch" "argsB"] []
      (fun c _ => ⟨c.arguments, rfl⟩)⟩

/-- Claim C6 (amended): a tool call whose execution exceeds the per-call
timeout yields exactly `{success: false, error: "Tool <name> timed out
after 30 seconds"}` (the message carries a `Tool` prefix and a hardcoded
30-second suffix, not the bare `<name> timed out`), and the orchestration
still proceeds: the timed-out result is recorded as the corresponding
`role=tool` message with content `Error: Tool <name> timed out after 30
seconds`, and the second upstream request is issued with that message
included rather than the round being aborted. -/
theorem c6_timeout_proceeds_amended (parse : String → Except String String)
    (env : String → String → CallOutcome) (dump : ToolResult → String)
    (dumpE : String → String) (base : List ChatMsg) (calls : List ToolCall)
    (upstream : List (List Char))
    (h : ∀ c ∈ calls, ∃ a, parse c.arguments = Except.ok a)
    (i : Nat) (hi : i < calls.length)
    (ht : env (calls.get ⟨i, hi⟩).name (argOf parse (calls.get ⟨i, hi⟩)) =
      CallOutcome.timeout) :
    (∀ n a : String, call_tool true true n a CallOutcome.timeout =
      Except.ok ⟨false, none, some ("Tool " ++ n ++ " timed out after 30 seconds"), n, a⟩) ∧
    ∃ tmsgs,
      (approveEndpoint true (Except.ok ()) parse env dump dumpE base
        calls upstream).secondRequest = some (base ++ assistantMsg calls :: tmsgs) ∧
      tmsgs[i]? = some (⟨"tool", some (calls.get ⟨i, hi⟩).id,
        some (calls.get ⟨i, hi⟩).name,
        "Error: " ++ ("Tool " ++ (calls.get ⟨i, hi⟩).name ++ " timed out after 30 seconds"),
        []⟩ : ChatMsg) := by
  refine ⟨fun n a => rfl, calls.map (toolMsgOf parse env dump), ?_, ?_⟩
  · simp [approveEndpoint, approvedFlow, toolLoopT_eq parse env dump calls h]
  · rw [List.getElem?_map, List.getElem?_eq_getElem hi]
    have ht2 : env calls[i].name (argOf parse calls[i]) = CallOutcome.timeout := ht
    simp [toolMsgOf, toolResultOf, ht2, List.get_eq_getElem]

theorem c6_timeout_proceeds_witness :
    (∀ c ∈ [ToolCall.mk "id1" "search" "argsA"],
      ∃ a, (Except.ok c.arguments : Except String String) = Except.ok a) ∧
    (0 < ([ToolCall.mk "id1" "search" "argsA"] : List ToolCall).length) ∧
    ((fun _ _ => CallOutcome.timeout : String → String → CallOutcome) "search" "argsA" =
      CallOutcome.timeout) ∧
    ((∀ n a : String, call_tool true true n a CallOutcome.timeout =
      Except.ok ⟨false, none, some ("Tool " ++ n ++ " timed out after 30 seconds"), n, a⟩) ∧
     ∃ tmsgs,
      (approveEndpoint true (Except.ok ()) (fun s => Except.ok s)
        (fun _ _ => CallOutcome.timeout) (fun _ => "d") (fun e => e) []
        [ToolCall.mk "id1" "search" "argsA"] []).secondRequest =
          some ([] ++ assistantMsg [ToolCall.mk "id1" "search" "argsA"] :: tmsgs) ∧
      tmsgs[0]? = some (⟨"tool", some "id1", some "search",
        "Error: " ++ ("Tool " ++ "search" ++ " timed out after 30 seconds"), []⟩ : ChatMsg)) :=
  ⟨fun c _ => ⟨c.arguments, rfl⟩, by decide, rfl,
    c6_timeout_proceeds_amended (fun s => Except.ok s) (fun _ _ => CallOutcome.timeout)
      (fun _ => "d") (fun e => e) [] [ToolCall.mk "id1" "search" "argsA"] []
      (fun c _ => ⟨c.arguments, rfl⟩) 0 (by decide) rfl⟩

end NovaSpec
